import Mathlib

/-!
Verification of the button-upload widget (`src/main.rs`).

The file shallowly embeds the in-memory presentation state machine
(`ButtonFace`, `Button`), the coordinator update loop (`App::update`)
and the persistence task (`store_button`).  Machine `usize` values are
modelled as `Nat`; the one place the Rust code can panic
(`faces.len() - 1` underflowing on an empty slice in `ButtonFace::incr`)
is modelled by returning `Option`, with `none` standing for the panic.
External collaborators (the IndexedDB backend, the file picker, the JS
object-URL constructor) are abstracted as explicit outcome parameters:
each fallible foreign call becomes a field of an environment record or a
message payload recording whether it succeeded, exactly mirroring the
`match`/`if let` structure of the source.
-/

namespace Upload

/-- Rust `enum ButtonFace { Top, Bottom, Custom(usize) }` (main.rs:262-268). -/
inductive ButtonFace
  | top
  | bottom
  | custom (i : Nat)
deriving DecidableEq, Repr

/-- Embeds `ButtonFace::incr` (main.rs:270-282).  The Rust match arms are

    Top => Bottom,
    Bottom if faces.is_empty() => Top,
    Bottom => Custom(0),
    Custom(i) if *i < faces.len() - 1 => Custom(*i + 1),
    Custom(_) => Top,

`faces.len() - 1` is `usize` subtraction, which panics in the
`Custom` arm when `faces` is empty; that panic is modelled as `none`. -/
def ButtonFace.incr : ButtonFace → List String → Option ButtonFace
  | .top, _ => some .bottom
  | .bottom, faces => if faces.isEmpty then some .top else some (.custom 0)
  | .custom i, faces =>
      if faces.isEmpty then none
      else if i < faces.length - 1 then some (.custom (i + 1)) else some .top

/-- Rust `Iterator::position` as used in `Button::add_custom`
(main.rs:296): index of the first element satisfying the predicate. -/
def position (p : String → Bool) : List String → Option Nat
  | [] => none
  | a :: l => if p a then some 0 else (position p l).map (· + 1)

/-- Rust `struct Button { button_face: ButtonFace, custom_faces: Vec<String> }`
(main.rs:284-288). -/
structure Button where
  button_face : ButtonFace
  custom_faces : List String
deriving DecidableEq, Repr

/-- Rust `#[derive(Default)]` for `Button`: `Top` face, empty list. -/
def Button.default : Button := ⟨.top, []⟩

/-- Embeds `Button::incr` (main.rs:291-293): `self.button_face.incr(&self.custom_faces)`. -/
def Button.incr (b : Button) : Option Button :=
  (b.button_face.incr b.custom_faces).map fun f => { b with button_face := f }

/-- Embeds `Button::add_custom` (main.rs:295-303), the spec's `addOrSelect`:

    match self.custom_faces.iter().position(|face| face == &url) {
        Some(i) => self.button_face = ButtonFace::Custom(i),
        None => {
            self.button_face = ButtonFace::Custom(self.custom_faces.len());
            self.custom_faces.push(url);
        }
    }
-/
def Button.add_custom (b : Button) (url : String) : Button :=
  match position (fun face => face == url) b.custom_faces with
  | some i => { b with button_face := .custom i }
  | none =>
      { button_face := .custom b.custom_faces.length,
        custom_faces := b.custom_faces ++ [url] }

/-- Embeds `Button::add` (main.rs:305-313), the spec's `bulkLoad`; returns the
`bool` the Rust function returns (yew's "should re-render"):

    if buttons.is_empty() { false } else {
        self.button_face = ButtonFace::Custom(self.custom_faces.len());
        self.custom_faces.append(&mut buttons);
        true
    }
-/
def Button.add (b : Button) (buttons : List String) : Button × Bool :=
  if buttons.isEmpty then (b, false)
  else
    ({ button_face := .custom b.custom_faces.length,
       custom_faces := b.custom_faces ++ buttons }, true)

/-- Embeds `Button::class_and_style` (main.rs:315-329).  The `Custom` arm indexes
`self.custom_faces[*i]`, which panics when `i` is out of bounds; the
panic is modelled as `none`. -/
def Button.class_and_style (b : Button) : Option (String × Option String) :=
  match b.button_face with
  | .top => some ("button-wrapper examine", none)
  | .bottom => some ("button-wrapper examine flipped", none)
  | .custom i =>
      match b.custom_faces.get? i with
      | none => none
      | some url =>
          some ("button-wrapper examine",
            some ("background-image: url(\"" ++ url ++ "\")"))

/-- The index invariant of the spec: whenever the face is `Custom(i)`,
`i < length(customFaces)`. -/
def Button.inv (b : Button) : Prop :=
  ∀ i, b.button_face = .custom i → i < b.custom_faces.length

instance (b : Button) : Decidable b.inv := by
  unfold Button.inv
  cases b.button_face <;> simp <;> infer_instance

/-- The three `Button` mutators the coordinator can invoke. -/
inductive Op
  | flip
  | addOrSelect (url : String)
  | bulkLoad (buttons : List String)

/-- One coordinator-driven mutation of the button;
`none` models a panic inside `ButtonFace::incr`. -/
def Button.step (b : Button) : Op → Option Button
  | .flip => b.incr
  | .addOrSelect url => some (b.add_custom url)
  | .bulkLoad buttons => some (b.add buttons).1

/-- Run a sequence of mutations, propagating a panic. -/
def Button.run (b : Button) : List Op → Option Button
  | [] => some b
  | op :: ops => (b.step op).bind (fun b' => b'.run ops)

/-- Iterate `ButtonFace.incr` `n` times against a fixed face list. -/
def iterIncr (faces : List String) : Nat → ButtonFace → Option ButtonFace
  | 0, f => some f
  | n + 1, f => (f.incr faces).bind (iterIncr faces n)

/-- Position of a face in the flip cycle: Top ↦ 0, Bottom ↦ 1, Custom i ↦ i+2. -/
def faceIdx : ButtonFace → Nat
  | .top => 0
  | .bottom => 1
  | .custom i => i + 2

/-- Inverse of `faceIdx`. -/
def faceOfIdx (k : Nat) : ButtonFace :=
  if k = 0 then .top else if k = 1 then .bottom else .custom (k - 2)

/-- Rust `enum ClickAction { Flip, ChooseImage }` (main.rs:174-177). -/
inductive ClickAction
  | flip
  | chooseImage
deriving DecidableEq, Repr

/-- The messages of `enum Msg` (main.rs:189-194).  `DbBuilt(Rexie)` carries
only the fact that a handle now exists; `StoreButton(File)` carries the
outcome of `Url::create_object_url_with_blob(&file)` — the only property
of the file that `App::update` itself inspects — as an `Option String`
(`none` = the JS call failed). -/
inductive Msg
  | dbBuilt
  | buttonsRead (buttons : List String)
  | clicked (a : ClickAction)
  | storeButtonMsg (urlResult : Option String)
deriving DecidableEq, Repr

/-- The asynchronous tasks `App::update` and `App::upload_image` spawn or
start; used to observe what the coordinator does besides mutating state. -/
inductive Effect
  | openUploadDialog
  | spawnStoreTask
  | spawnReadButtons
deriving DecidableEq, Repr

/-- Rust `struct App { change_listener, db: Option<Rc<Mutex<Rexie>>>, button }`
(main.rs:167-172).  The opaque `Rexie` handle is modelled as `Unit` (its
only observable property in `update` is presence); the picker listener
slot holds no data relevant to any claim and is omitted. -/
structure App where
  db : Option Unit
  button : Button
deriving DecidableEq, Repr

/-- Rust `#[derive(Default)]` for `App`: no handle, default button. -/
def App.default : App := ⟨none, Button.default⟩

/-- Embeds `App::update` (main.rs:357-385), returning the new state, the `bool`
yew re-render flag and the effects started; `none` models a panic
(only possible through `Button::incr`).  `Clicked(ChooseImage)` runs
`upload_image`, which performs no state change relevant here and opens
the picker dialog.  `StoreButton`:

    if let Ok(url) = Url::create_object_url_with_blob(&file) {
        self.add_custom_button(url);
    }
    if let Some(db) = &self.db {
        spawn_local(store_button(db.clone(), file));
    }
    true
-/
def App.update (app : App) : Msg → Option (App × Bool × List Effect)
  | .clicked .flip =>
      (app.button.incr).map fun b => ({ app with button := b }, true, [])
  | .clicked .chooseImage => some (app, true, [.openUploadDialog])
  | .storeButtonMsg urlResult =>
      let app' :=
        match urlResult with
        | some url => { app with button := app.button.add_custom url }
        | none => app
      let effs : List Effect :=
        match app.db with
        | some _ => [.spawnStoreTask]
        | none => []
      some (app', true, effs)
  | .dbBuilt => some ({ app with db := some () }, false, [.spawnReadButtons])
  | .buttonsRead buttons =>
      let res := app.button.add buttons
      some ({ app with button := res.1 }, res.2, [])

/-- The error type of a failed `store.add` call, as `store_button`
destructures it (main.rs:152-162): either
`Error::IdbError(idb::Error::DomException(d))` — carrying the
exception's name and message — or any other `rexie::Error`. -/
inductive RexieError
  | idbDomException (name message : String)
  | other (desc : String)
deriving DecidableEq, Repr

/-- Log levels used by `store_button` (`log::info!` / `log::error!`). -/
inductive LogLevel
  | info
  | error
deriving DecidableEq, Repr

/-- Holds when `pat` is a prefix of the second list. -/
def prefOf : List Char → List Char → Bool
  | [], _ => true
  | _ :: _, [] => false
  | a :: as, b :: bs => a == b && prefOf as bs

/-- Holds when `pat` occurs as a contiguous run inside the second list. -/
def infOf (pat : List Char) : List Char → Bool
  | [] => pat.isEmpty
  | c :: rest => prefOf pat (c :: rest) || infOf pat rest

/-- Embeds `d.message().contains("uniqueness")` (main.rs:157): substring
containment on the underlying character lists. -/
def containsSub (s pat : String) : Bool := infOf pat.data s.data

/-- Outcomes of the foreign calls `store_button` makes, in source order
(main.rs:99-145): the `file.array_buffer()` future, `db.lock()`, the
transaction builder, `t.store(BUTTONS)`, and finally `store.add`.
`doneOk` is the outcome of `t.done()` when it is called. -/
structure StoreEnv where
  arrayBufferOk : Bool
  lockOk : Bool
  txnOk : Bool
  storeOk : Bool
  addResult : Except RexieError Nat
  doneOk : Bool
deriving Repr

/-- What a run of `store_button` did: whether `t.done()` was invoked,
the log lines emitted, and the messages sent back to the yew link
(`store_button` takes no `Scope`, so this list is built empty in every
branch, mirroring the absence of any `send_message` in the source). -/
structure StoreResult where
  doneCalled : Bool
  logs : List (LogLevel × String)
  msgs : List Msg
deriving DecidableEq, Repr

/-- Embeds `store_button` (main.rs:99-165) as a function of its foreign-call
outcomes.  Note the error arm:

    Err(e) => {
        log::info!("e: {e:?}");
        if let Error::IdbError(idb::Error::DomException(d)) = e {
            if d.name() == "ConstraintError" && d.message().contains("uniqueness") {
                info!("That button is already stored");
            }
        } else {
            error!("Could not store button: {e:?}");
        }
    }

The `else` belongs to the `if let`, so a `DomException` that is not a
uniqueness `ConstraintError` reaches neither `info!("already stored")`
nor `error!`. -/
def storeButton (env : StoreEnv) : StoreResult :=
  if ¬ env.arrayBufferOk then
    ⟨false, [(.error, "Could not get the array buffer")], []⟩
  else if ¬ env.lockOk then
    ⟨false, [(.error, "Could not lock db")], []⟩
  else if ¬ env.txnOk then
    ⟨false, [(.error, "Could not create transaction to store button")], []⟩
  else if ¬ env.storeOk then
    ⟨false, [(.error, "Cant get store to store buttons")], []⟩
  else
    match env.addResult with
    | .ok _ =>
        if env.doneOk then ⟨true, [], []⟩
        else ⟨true, [(.error, "Could not complete button storage transaction")], []⟩
    | .error e =>
        let debugLog : List (LogLevel × String) := [(.info, "e: ...")]
        match e with
        | .idbDomException name message =>
            if name = "ConstraintError" ∧ containsSub message "uniqueness" then
              ⟨false, debugLog ++ [(.info, "That button is already stored")], []⟩
            else
              ⟨false, debugLog, []⟩
        | .other _ =>
            ⟨false, debugLog ++ [(.error, "Could not store button")], []⟩

/-- Deliver a list of messages to the coordinator in order, propagating
a panic.  Used to state that completing a persistence task leaves the
coordinator untouched. -/
def deliverAll (app : App) : List Msg → Option App
  | [] => some app
  | m :: ms =>
      match App.update app m with
      | none => none
      | some (app', _, _) => deliverAll app' ms

/-! ## Theorems -/

/-- Claim C1, counterexample: the claim says `bulkLoad` "appends all
references not already present"; on `customFaces = ["a"]`,
`bulkLoad(["a"])` would then append nothing, leaving `["a"]`.  The code
appends everything, producing `["a", "a"]`. -/
theorem C1_counterexample :
    (Button.add ⟨.top, ["a"]⟩ ["a"]).1 = ⟨.custom 1, ["a", "a"]⟩
    ∧ ¬ (Button.add ⟨.top, ["a"]⟩ ["a"]).1.custom_faces =
          ["a"] ++ List.filter (fun r => !(["a"].contains r)) ["a"] := by
  constructor
  · rfl
  · decide

/-- Claim C1 (amended): on a non-empty sequence, `bulkLoad`
(`Button::add`) appends ALL supplied references — including any already
present — and transitions to `Custom(previous length of customFaces)`,
the first appended entry, reporting a visible change; in particular
`bulkLoad([a, r])` on an empty list yields `Custom(0)` referencing `a`
with `customFaces = [a, r]`; `bulkLoad([])` changes nothing and reports
no visible change. -/
theorem C1_amended (b : Button) (buttons : List String) (a r : String)
    (h : buttons ≠ []) :
    Button.add b buttons
      = ({ button_face := .custom b.custom_faces.length,
           custom_faces := b.custom_faces ++ buttons }, true)
    ∧ Button.add ⟨.top, []⟩ [a, r] = (⟨.custom 0, [a, r]⟩, true)
    ∧ Button.add b [] = (b, false) := by
  refine ⟨?_, rfl, rfl⟩
  cases buttons with
  | nil => exact absurd rfl h
  | cons x xs => rfl

/-- Concrete instance of `C1_amended`. -/
theorem C1_amended_witness :
    Button.add ⟨.top, ["x"]⟩ ["y"] = (⟨.custom 1, ["x", "y"]⟩, true) :=
  (C1_amended ⟨.top, ["x"]⟩ ["y"] "a" "b" (by decide)).1

/-- With no custom faces, iterating `flip` from either built-in face
strictly alternates `Top`/`Bottom` and never panics. -/
theorem iterIncr_nil_alternates (n : Nat) :
    iterIncr [] n .top = some (if n % 2 = 0 then .top else .bottom)
    ∧ iterIncr [] n .bottom = some (if n % 2 = 0 then .bottom else .top) := by
  induction n with
  | zero => simp [iterIncr]
  | succ k ih =>
      have htop : iterIncr [] (k + 1) .top = iterIncr [] k .bottom := by
        simp [iterIncr, ButtonFace.incr]
      have hbot : iterIncr [] (k + 1) .bottom = iterIncr [] k .top := by
        simp [iterIncr, ButtonFace.incr]
      rw [htop, hbot, ih.1, ih.2]
      rcases Nat.mod_two_eq_zero_or_one k with h | h <;>
        simp [h, Nat.succ_mod_two_eq_zero_iff, Nat.succ_mod_two_eq_one_iff]

/-- Claim C2: one `flip()` step (`ButtonFace::incr`) transitions
`Top → Bottom`; `Bottom → Top` on an empty face list and
`Bottom → Custom(0)` otherwise; `Custom(i) → Custom(i+1)` when
`i + 1 < len` and `Custom(last) → Top`; and with zero custom faces every
flip sequence from the initial `Top` alternates strictly
Top, Bottom, Top, Bottom, … -/
theorem C2_flip_transitions (faces : List String) (i : Nat) :
    ButtonFace.incr .top faces = some .bottom
    ∧ (faces = [] → ButtonFace.incr .bottom faces = some .top)
    ∧ (faces ≠ [] → ButtonFace.incr .bottom faces = some (.custom 0))
    ∧ (i + 1 < faces.length →
        ButtonFace.incr (.custom i) faces = some (.custom (i + 1)))
    ∧ (faces ≠ [] → i = faces.length - 1 →
        ButtonFace.incr (.custom i) faces = some .top)
    ∧ (∀ n, iterIncr [] n .top = some (if n % 2 = 0 then .top else .bottom)) := by
  refine ⟨rfl, ?_, ?_, ?_, ?_, fun n => (iterIncr_nil_alternates n).1⟩
  · rintro rfl; rfl
  · intro h
    cases faces with
    | nil => exact absurd rfl h
    | cons x xs => rfl
  · intro h
    cases faces with
    | nil => simp at h
    | cons x xs =>
        have h' : i < xs.length := by
          simp only [List.length_cons] at h; omega
        simp [ButtonFace.incr, h']
  · intro h hi
    cases faces with
    | nil => exact absurd rfl h
    | cons x xs =>
        have h' : ¬ i < xs.length := by
          simp only [List.length_cons] at hi; omega
        simp [ButtonFace.incr, h']

/-- Concrete instances of `C2_flip_transitions`. -/
theorem C2_witness :
    ButtonFace.incr .bottom ["a"] = some (.custom 0)
    ∧ ButtonFace.incr (.custom 0) ["a", "b"] = some (.custom 1)
    ∧ ButtonFace.incr (.custom 1) ["a", "b"] = some .top
    ∧ iterIncr [] 3 .top = some .bottom := by
  refine ⟨(C2_flip_transitions ["a"] 0).2.2.1 (by simp),
          (C2_flip_transitions ["a", "b"] 0).2.2.2.1 (by simp),
          (C2_flip_transitions ["a", "b"] 1).2.2.2.2.1 (by simp) (by simp), ?_⟩
  have := (C2_flip_transitions [] 0).2.2.2.2.2 3
  simpa using this

/-- Claim C10: `ButtonFace::incr` evaluates `faces.len() - 1` on `usize`
in the `Custom` arm, so it is panic-free exactly under the index
invariant: whenever `Custom(i)` implies the face list is non-empty the
call succeeds, while calling it in state `Custom(i)` with an empty face
list underflows (modelled as `none`). -/
theorem C10_incr_panic_free_iff (f : ButtonFace) (faces : List String) :
    ((∀ i, f = .custom i → faces ≠ []) → (f.incr faces).isSome = true)
    ∧ (∀ i, ButtonFace.incr (.custom i) [] = none) := by
  refine ⟨?_, fun i => rfl⟩
  intro h
  cases f with
  | top => rfl
  | bottom => cases faces <;> rfl
  | custom i =>
      cases faces with
      | nil => exact absurd rfl (h i rfl)
      | cons x xs =>
          by_cases hi : i < xs.length <;> simp [ButtonFace.incr, hi]

/-- Concrete instance of `C10_incr_panic_free_iff`. -/
theorem C10_witness :
    (ButtonFace.incr (.custom 0) ["a"]).isSome = true
    ∧ ButtonFace.incr (.custom 3) [] = none :=
  ⟨(C10_incr_panic_free_iff (.custom 0) ["a"]).1 (fun _ _ => by simp),
   (C10_incr_panic_free_iff (.custom 0) []).2 3⟩

/-- Index returned by `position` is in range. -/
lemma position_lt_length {p : String → Bool} {l : List String} {i : Nat}
    (h : position p l = some i) : i < l.length := by
  induction l generalizing i with
  | nil => simp [position] at h
  | cons a l ih =>
      simp only [position] at h
      by_cases hp : p a
      · simp only [hp, if_pos, Option.some.injEq] at h
        simp [← h]
      · simp only [hp, Bool.false_eq_true, if_false, Option.map_eq_some'] at h
        obtain ⟨j, hj, rfl⟩ := h
        have := ih hj
        simp only [List.length_cons]
        omega

/-- Appending one element to a list `position` missed: the new element is
found exactly when it satisfies the predicate, at the old length. -/
lemma position_append_of_none {p : String → Bool} {l : List String}
    (h : position p l = none) (x : String) :
    position p (l ++ [x]) = if p x then some l.length else none := by
  induction l with
  | nil => simp [position]
  | cons a l ih =>
      simp only [position] at h
      by_cases hp : p a
      · simp [hp] at h
      · simp only [hp, Bool.false_eq_true, if_false, Option.map_eq_none'] at h
        simp only [List.cons_append, position, hp, Bool.false_eq_true, if_false,
          List.append_eq]
        rw [ih h]
        by_cases hx : p x <;> simp [hx]

/-- Unfolding of `Button::add_custom`, found case. -/
lemma add_custom_eq_of_position_some {b : Button} {url : String} {i : Nat}
    (h : position (fun face => face == url) b.custom_faces = some i) :
    b.add_custom url = { b with button_face := .custom i } := by
  unfold Button.add_custom
  rw [h]

/-- Unfolding of `Button::add_custom`, not-found case. -/
lemma add_custom_eq_of_position_none {b : Button} {url : String}
    (h : position (fun face => face == url) b.custom_faces = none) :
    b.add_custom url
      = ⟨.custom b.custom_faces.length, b.custom_faces ++ [url]⟩ := by
  unfold Button.add_custom
  rw [h]

/-- One `ButtonFace.incr` step preserves the index bound and never panics on
invariant-satisfying inputs. -/
lemma face_incr_inv {f : ButtonFace} {faces : List String}
    (hf : ∀ i, f = .custom i → i < faces.length) :
    ∃ f', f.incr faces = some f'
      ∧ ∀ j, f' = .custom j → j < faces.length := by
  cases f with
  | top => exact ⟨.bottom, rfl, by simp⟩
  | bottom =>
      cases faces with
      | nil => exact ⟨.top, rfl, by simp⟩
      | cons x xs =>
          refine ⟨.custom 0, rfl, ?_⟩
          intro j hj
          injection hj with hj
          simp [← hj]
  | custom i =>
      have hi := hf i rfl
      cases faces with
      | nil => simp at hi
      | cons x xs =>
          by_cases hlt : i < xs.length
          · refine ⟨.custom (i + 1), by simp [ButtonFace.incr, hlt], ?_⟩
            intro j hj
            injection hj with hj
            simp only [List.length_cons]
            omega
          · exact ⟨.top, by simp [ButtonFace.incr, hlt], by simp⟩

/-- Every single coordinator-driven mutation succeeds from an
invariant-satisfying button and preserves the invariant. -/
lemma step_inv {b : Button} (hb : b.inv) (op : Op) :
    ∃ b', b.step op = some b' ∧ b'.inv := by
  cases op with
  | flip =>
      obtain ⟨f', hf', hinv⟩ := face_incr_inv hb
      exact ⟨{ b with button_face := f' },
        by simp [Button.step, Button.incr, hf'], hinv⟩
  | addOrSelect url =>
      refine ⟨b.add_custom url, rfl, ?_⟩
      cases hpos : position (fun face => face == url) b.custom_faces with
      | some i =>
          rw [add_custom_eq_of_position_some hpos]
          intro j hj
          injection hj with hj
          rw [← hj]
          exact position_lt_length hpos
      | none =>
          rw [add_custom_eq_of_position_none hpos]
          intro j hj
          injection hj with hj
          rw [← hj]
          simp
  | bulkLoad buttons =>
      refine ⟨(b.add buttons).1, rfl, ?_⟩
      unfold Button.add
      by_cases hbtns : buttons.isEmpty
      · simpa [hbtns] using hb
      · simp only [hbtns, Bool.false_eq_true, if_false]
        intro j hj
        injection hj with hj
        have : buttons ≠ [] := by
          cases buttons with
          | nil => simp at hbtns
          | cons y ys => simp
        have hlen : 0 < buttons.length := List.length_pos.mpr this
        simp only [List.length_append]
        omega

/-- Running any sequence of mutations from an invariant-satisfying
button succeeds and preserves the invariant. -/
lemma run_inv {b : Button} (hb : b.inv) (ops : List Op) :
    ∃ b', b.run ops = some b' ∧ b'.inv := by
  induction ops generalizing b with
  | nil => exact ⟨b, rfl, hb⟩
  | cons op ops ih =>
      obtain ⟨b1, h1, hinv1⟩ := step_inv hb op
      obtain ⟨b2, h2, hinv2⟩ := ih hinv1
      exact ⟨b2, by simp [Button.run, h1, h2], hinv2⟩

/-- The initial button satisfies the index invariant. -/
lemma default_inv : Button.default.inv := by
  intro i h
  simp [Button.default] at h

/-- Claim C3: from the initial state (`Top`, empty `customFaces`), every
sequence of the operations `flip` / `addOrSelect` / `bulkLoad` runs
without panicking and preserves the invariant that a `Custom(i)` face
always has `i < length(customFaces)`; in particular with an empty list
the face is never `Custom`. -/
theorem C3_invariant (ops : List Op) :
    ∃ b, Button.run Button.default ops = some b ∧ b.inv
      ∧ (b.custom_faces = [] → ∀ i, b.button_face ≠ .custom i) := by
  obtain ⟨b, hrun, hinv⟩ := run_inv default_inv ops
  refine ⟨b, hrun, hinv, ?_⟩
  intro hempty i hface
  have := hinv i hface
  simp [hempty] at this

/-- Concrete instance of `C3_invariant`. -/
theorem C3_witness :
    ∃ b, Button.run Button.default [Op.bulkLoad ["a", "b"], Op.flip]
        = some b ∧ b.inv
      ∧ (b.custom_faces = [] → ∀ i, b.button_face ≠ .custom i) :=
  C3_invariant [Op.bulkLoad ["a", "b"], Op.flip]

/-- Claim C4: `addOrSelect(r)` (`Button::add_custom`) selects the
existing entry without appending when `r` occurs at position `i`, and
otherwise appends `r` and selects the new last index; consequently the
operation is idempotent — a second call with the same `r` changes
nothing, leaves the length unchanged, and both calls end at the same
`Custom(i)`. -/
theorem C4_addOrSelect (b : Button) (r : String) :
    (∀ i, position (fun face => face == r) b.custom_faces = some i →
        b.add_custom r = { b with button_face := .custom i })
    ∧ (position (fun face => face == r) b.custom_faces = none →
        b.add_custom r
          = ⟨.custom b.custom_faces.length, b.custom_faces ++ [r]⟩)
    ∧ (b.add_custom r).add_custom r = b.add_custom r
    ∧ ((b.add_custom r).add_custom r).custom_faces.length
        = (b.add_custom r).custom_faces.length
    ∧ ∃ i, (b.add_custom r).button_face = .custom i
        ∧ ((b.add_custom r).add_custom r).button_face = .custom i := by
  have h1 : ∀ i, position (fun face => face == r) b.custom_faces = some i →
      b.add_custom r = { b with button_face := .custom i } :=
    fun _ h => add_custom_eq_of_position_some h
  have h2 : position (fun face => face == r) b.custom_faces = none →
      b.add_custom r
        = ⟨.custom b.custom_faces.length, b.custom_faces ++ [r]⟩ :=
    fun h => add_custom_eq_of_position_none h
  have hidem : (b.add_custom r).add_custom r = b.add_custom r := by
    cases hpos : position (fun face => face == r) b.custom_faces with
    | some i =>
        rw [h1 i hpos]
        exact add_custom_eq_of_position_some hpos
    | none =>
        rw [h2 hpos]
        have hpos2 : position (fun face => face == r)
            (b.custom_faces ++ [r]) = some b.custom_faces.length := by
          rw [position_append_of_none hpos r]
          simp
        exact add_custom_eq_of_position_some hpos2
  refine ⟨h1, h2, hidem, by rw [hidem], ?_⟩
  cases hpos : position (fun face => face == r) b.custom_faces with
  | some i => exact ⟨i, by rw [h1 i hpos], by rw [hidem, h1 i hpos]⟩
  | none =>
      exact ⟨b.custom_faces.length, by rw [h2 hpos], by rw [hidem, h2 hpos]⟩

/-- Concrete instance of `C4_addOrSelect`. -/
theorem C4_witness :
    Button.add_custom ⟨.top, []⟩ "a" = ⟨.custom 0, ["a"]⟩
    ∧ (Button.add_custom ⟨.top, []⟩ "a").add_custom "a"
        = ⟨.custom 0, ["a"]⟩ := by
  have h := C4_addOrSelect ⟨.top, []⟩ "a"
  have e1 : Button.add_custom ⟨.top, []⟩ "a" = ⟨.custom 0, ["a"]⟩ := by
    simpa using h.2.1 rfl
  exact ⟨e1, by rw [h.2.2.1, e1]⟩

/-- Decoding inverts encoding: `faceOfIdx` after `faceIdx`. -/
lemma faceOfIdx_faceIdx (f : ButtonFace) : faceOfIdx (faceIdx f) = f := by
  cases f <;> simp [faceIdx, faceOfIdx]

/-- Encoding inverts decoding: `faceIdx` after `faceOfIdx`. -/
lemma faceIdx_faceOfIdx (k : Nat) : faceIdx (faceOfIdx k) = k := by
  unfold faceOfIdx
  by_cases h0 : k = 0
  · simp [h0, faceIdx]
  · by_cases h1 : k = 1
    · simp [h0, h1, faceIdx]
    · simp only [h0, h1, if_false, faceIdx]
      omega

/-- A cycle position below `N + 2` decodes to an invariant-satisfying
face for a list of length `N`. -/
lemma faceOfIdx_valid {k N : Nat} (hk : k < N + 2) (i : Nat)
    (h : faceOfIdx k = .custom i) : i < N := by
  unfold faceOfIdx at h
  by_cases h0 : k = 0
  · simp [h0] at h
  · by_cases h1 : k = 1
    · simp [h0, h1] at h
    · simp only [h0, h1, if_false, ButtonFace.custom.injEq] at h
      omega

/-- On a non-empty face list, one `incr` step advances the cycle
position by one, modulo `length + 2`. -/
lemma incr_mod {faces : List String} (hne : faces ≠ []) (f : ButtonFace)
    (hf : ∀ i, f = .custom i → i < faces.length) :
    f.incr faces
      = some (faceOfIdx ((faceIdx f + 1) % (faces.length + 2))) := by
  cases f with
  | top =>
      have hm : (faceIdx ButtonFace.top + 1) % (faces.length + 2) = 1 := by
        have h1 : (1 : Nat) < faces.length + 2 := by omega
        exact Nat.mod_eq_of_lt h1
      rw [hm]
      rfl
  | bottom =>
      have hm : (faceIdx ButtonFace.bottom + 1) % (faces.length + 2) = 2 := by
        have h2 : (2 : Nat) < faces.length + 2 := by
          have := List.length_pos.mpr hne
          omega
        exact Nat.mod_eq_of_lt h2
      rw [hm]
      cases faces with
      | nil => exact absurd rfl hne
      | cons x xs => rfl
  | custom i =>
      have hi := hf i rfl
      cases faces with
      | nil => exact absurd rfl hne
      | cons x xs =>
          simp only [List.length_cons] at hi
          by_cases hlt : i < xs.length
          · have hm : (faceIdx (ButtonFace.custom i) + 1)
                % ((x :: xs).length + 2) = i + 3 := by
              have h3 : i + 3 < (x :: xs).length + 2 := by
                simp only [List.length_cons]
                omega
              simpa [faceIdx] using Nat.mod_eq_of_lt h3
            rw [hm]
            have hdec : faceOfIdx (i + 3) = .custom (i + 1) := by
              unfold faceOfIdx
              rw [if_neg (by omega), if_neg (by omega)]
              simp only [ButtonFace.custom.injEq]
              omega
            rw [hdec]
            simp [ButtonFace.incr, hlt]
          · have hm : (faceIdx (ButtonFace.custom i) + 1)
                % ((x :: xs).length + 2) = 0 := by
              have he : faceIdx (ButtonFace.custom i) + 1
                  = (x :: xs).length + 2 := by
                simp only [faceIdx, List.length_cons]
                omega
              rw [he, Nat.mod_self]
            rw [hm]
            simp [ButtonFace.incr, hlt, faceOfIdx]

/-- Iterating `incr` `n` times advances the cycle position by `n`,
modulo `length + 2`. -/
lemma iterIncr_mod {faces : List String} (hne : faces ≠ []) :
    ∀ (n k : Nat), k < faces.length + 2 →
      iterIncr faces n (faceOfIdx k)
        = some (faceOfIdx ((k + n) % (faces.length + 2))) := by
  intro n
  induction n with
  | zero =>
      intro k hk
      simp [iterIncr, Nat.mod_eq_of_lt hk]
  | succ m ih =>
      intro k hk
      have hstep := incr_mod hne (faceOfIdx k) (faceOfIdx_valid hk)
      simp only [iterIncr, hstep, Option.some_bind]
      rw [faceIdx_faceOfIdx]
      rw [ih ((k + 1) % (faces.length + 2)) (Nat.mod_lt _ (by omega))]
      have harith : ((k + 1) % (faces.length + 2) + m) % (faces.length + 2)
          = (k + (m + 1)) % (faces.length + 2) := by
        rw [Nat.mod_add_mod]
        congr 1
        omega
      rw [harith]

/-- Claim C5: for a non-empty list of `N` custom faces, the flip cycle
has length exactly `N + 2` — applying `incr` `N + 2` times returns any
invariant-satisfying state to itself — and one step moves cycle position
`k` (Top at 0, Bottom at 1, Custom(j) at j+2) to `(k+1) mod (N+2)`,
i.e. the fixed order Top, Bottom, Custom(0), …, Custom(N-1), Top, … -/
theorem C5_cycle (faces : List String) (hne : faces ≠ []) (f : ButtonFace)
    (hf : ∀ i, f = .custom i → i < faces.length) :
    iterIncr faces (faces.length + 2) f = some f
    ∧ (∀ k, k < faces.length + 2 →
        ButtonFace.incr (faceOfIdx k) faces
          = some (faceOfIdx ((k + 1) % (faces.length + 2))))
    ∧ faceOfIdx 0 = .top
    ∧ faceOfIdx 1 = .bottom
    ∧ ∀ j, faceOfIdx (j + 2) = .custom j := by
  refine ⟨?_, ?_, rfl, rfl, ?_⟩
  · have hk : faceIdx f < faces.length + 2 := by
      cases f with
      | top => simp [faceIdx]
      | bottom => simp [faceIdx]
      | custom i =>
          have := hf i rfl
          simp only [faceIdx]
          omega
    have hiter := iterIncr_mod hne (faces.length + 2) (faceIdx f) hk
    rw [faceOfIdx_faceIdx] at hiter
    rw [hiter]
    have hmod : (faceIdx f + (faces.length + 2)) % (faces.length + 2)
        = faceIdx f := by
      rw [Nat.add_mod_right]
      exact Nat.mod_eq_of_lt hk
    rw [hmod, faceOfIdx_faceIdx]
  · intro k hk
    have hstep := incr_mod hne (faceOfIdx k) (faceOfIdx_valid hk)
    simpa [faceIdx_faceOfIdx] using hstep
  · intro j
    unfold faceOfIdx
    rw [if_neg (by omega), if_neg (by omega)]
    simp

/-- Concrete instance of `C5_cycle`: with two custom faces the cycle has
length four. -/
theorem C5_witness :
    iterIncr ["a", "b"] 4 .bottom = some .bottom
    ∧ ButtonFace.incr (faceOfIdx 3) ["a", "b"] = some (faceOfIdx 0) := by
  have h := C5_cycle ["a", "b"] (by simp) .bottom (fun i hi => by simp at hi)
  refine ⟨by simpa using h.1, ?_⟩
  simpa using h.2.1 3 (by simp)

/-- Claim C6, counterexample: on a write failure that is an IndexedDB
DomException but not a uniqueness `ConstraintError` (here an
"AbortError"), `store_button` does not finalize — but it also reports no
error: the `else` branch belongs to the `if let`, so the only log line
is the unconditional info-level debug dump, refuting "any other write
failure is reported as an error". -/
theorem C6_counterexample :
    (storeButton ⟨true, true, true, true,
        .error (.idbDomException "AbortError" "aborted"), true⟩).doneCalled
      = false
    ∧ (storeButton ⟨true, true, true, true,
        .error (.idbDomException "AbortError" "aborted"), true⟩).logs
      = [(.info, "e: ...")] := by
  constructor <;> decide

/-- Claim C6 (amended): the transaction is finalized (`t.done()`) iff the
write `store.add` is reached and succeeds — on a failed write no
finalize is attempted; a uniqueness `ConstraintError` is logged as the
expected non-fatal "already stored" info outcome; a write failure that
is not an IndexedDB DomException is reported as an error; but a
DomException other than a uniqueness `ConstraintError` is only logged at
info level, neither treated as "already stored" nor reported as an
error. -/
theorem C6_amended (env : StoreEnv) :
    ((storeButton env).doneCalled = true
      ↔ env.arrayBufferOk ∧ env.lockOk ∧ env.txnOk ∧ env.storeOk
          ∧ ∃ n, env.addResult = .ok n)
    ∧ (∀ name msg, env.addResult = .error (.idbDomException name msg) →
        name = "ConstraintError" → containsSub msg "uniqueness" = true →
        env.arrayBufferOk → env.lockOk → env.txnOk → env.storeOk →
        (storeButton env).logs
          = [(.info, "e: ..."), (.info, "That button is already stored")])
    ∧ (∀ d, env.addResult = .error (.other d) →
        env.arrayBufferOk → env.lockOk → env.txnOk → env.storeOk →
        (storeButton env).logs
          = [(.info, "e: ..."), (.error, "Could not store button")])
    ∧ (∀ name msg, env.addResult = .error (.idbDomException name msg) →
        ¬ (name = "ConstraintError" ∧ containsSub msg "uniqueness" = true) →
        env.arrayBufferOk → env.lockOk → env.txnOk → env.storeOk →
        (storeButton env).logs = [(.info, "e: ...")]) := by
  obtain ⟨ab, lk, tx, st, add, dn⟩ := env
  refine ⟨?_, ?_, ?_, ?_⟩
  · cases ab <;> cases lk <;> cases tx <;> cases st <;>
      try simp [storeButton]
    cases add with
    | ok n => cases dn <;> simp [storeButton]
    | error e =>
        cases e with
        | idbDomException name msg =>
            by_cases hc : name = "ConstraintError"
                ∧ containsSub msg "uniqueness" = true <;>
              simp [storeButton, hc]
        | other d => simp [storeButton]
  · rintro name msg rfl rfl huniq hab hlk htx hst
    simp only at hab hlk htx hst
    subst hab; subst hlk; subst htx; subst hst
    simp [storeButton, huniq]
  · rintro d rfl hab hlk htx hst
    simp only at hab hlk htx hst
    subst hab; subst hlk; subst htx; subst hst
    simp [storeButton]
  · rintro name msg rfl hc hab hlk htx hst
    simp only at hab hlk htx hst
    subst hab; subst hlk; subst htx; subst hst
    simp [storeButton, hc]

/-- Concrete instances of `C6_amended`: a successful write commits, and
a uniqueness violation is logged as "already stored". -/
theorem C6_witness :
    (storeButton ⟨true, true, true, true, .ok 1, true⟩).doneCalled = true
    ∧ (storeButton ⟨true, true, true, true,
        .error (.idbDomException "ConstraintError"
          "blocked by a uniqueness constraint"), true⟩).logs
      = [(.info, "e: ..."), (.info, "That button is already stored")] := by
  constructor
  · exact (C6_amended ⟨true, true, true, true, .ok 1, true⟩).1.mpr
      ⟨rfl, rfl, rfl, rfl, 1, rfl⟩
  · exact (C6_amended ⟨true, true, true, true,
        .error (.idbDomException "ConstraintError"
          "blocked by a uniqueness constraint"), true⟩).2.1
      "ConstraintError" "blocked by a uniqueness constraint"
      rfl rfl (by decide) rfl rfl rfl rfl

/-- Claim C7: when the store handle is absent (`db == None`), the
coordinator's `StoreButton` handling still adds the transient reference
and selects it, spawns no persistence task, and does not panic; for a
first upload the result is `customFaces = [refF]`, state `Custom(0)`. -/
theorem C7_no_handle (app : App) (url : String) (hdb : app.db = none) :
    App.update app (.storeButtonMsg (some url))
      = some ({ app with button := app.button.add_custom url }, true, [])
    ∧ App.default.button.add_custom url = ⟨.custom 0, [url]⟩ := by
  constructor
  · simp [App.update, hdb]
  · rfl

/-- Concrete instance of `C7_no_handle`. -/
theorem C7_witness :
    App.update App.default (.storeButtonMsg (some "u"))
      = some (⟨none, ⟨.custom 0, ["u"]⟩⟩, true, []) := by
  have h := C7_no_handle App.default "u" rfl
  rw [h.1, h.2]
  rfl

/-- Claim C8: `store_button` sends no message back to the coordinator —
its link-message list is empty in every branch — so delivering the
outcome of the persistence task to any coordinator state is the
identity: `button_face` and `customFaces` after persistence completes
equal their values when the transient face was applied. -/
theorem C8_persistence_frame (env : StoreEnv) (app : App) :
    (storeButton env).msgs = []
    ∧ deliverAll app (storeButton env).msgs = some app := by
  have hm : (storeButton env).msgs = [] := by
    obtain ⟨ab, lk, tx, st, add, dn⟩ := env
    cases ab <;> cases lk <;> cases tx <;> cases st <;>
      try simp [storeButton]
    cases add with
    | ok n => cases dn <;> simp [storeButton]
    | error e =>
        cases e with
        | idbDomException name msg =>
            by_cases hc : name = "ConstraintError"
                ∧ containsSub msg "uniqueness" = true <;>
              simp [storeButton, hc]
        | other d => simp [storeButton]
  exact ⟨hm, by rw [hm]; rfl⟩

/-- Claim C9: the render contract maps `Top` and `Bottom` to fixed class
combinations with no background override, and `Custom(i)` — under the
index invariant — to the base class plus a background-image reference
drawn from `customFaces[i]`. -/
theorem C9_render (b : Button) :
    (b.button_face = .top →
        b.class_and_style = some ("button-wrapper examine", none))
    ∧ (b.button_face = .bottom →
        b.class_and_style = some ("button-wrapper examine flipped", none))
    ∧ (∀ i, b.button_face = .custom i → i < b.custom_faces.length →
        ∃ url, b.custom_faces.get? i = some url
          ∧ b.class_and_style = some ("button-wrapper examine",
              some ("background-image: url(\"" ++ url ++ "\")"))) := by
  refine ⟨?_, ?_, ?_⟩
  · intro h
    simp [Button.class_and_style, h]
  · intro h
    simp [Button.class_and_style, h]
  · intro i h hi
    have hg : b.custom_faces.get? i = some (b.custom_faces.get ⟨i, hi⟩) :=
      List.get?_eq_get hi
    refine ⟨b.custom_faces.get ⟨i, hi⟩, hg, ?_⟩
    simp only [Button.class_and_style, h]
    rw [hg]

/-- Concrete instance of `C9_render`. -/
theorem C9_witness :
    Button.class_and_style ⟨.custom 0, ["u"]⟩
      = some ("button-wrapper examine",
          some ("background-image: url(\"" ++ "u" ++ "\")")) := by
  obtain ⟨url, hurl, hcs⟩ :=
    (C9_render ⟨.custom 0, ["u"]⟩).2.2 0 rfl (by simp)
  have hu : url = "u" := by simpa using hurl.symm
  rw [hcs, hu]

end Upload
